import Mathlib

/-!
Verification of the scene-change-detection repository's core:
the `VideoReader` frame-access layer (`src/utils/video_reader.py`) and the
sequence/label generation logic of `AutoshotDataset`
(`src/autoshot_dataloader.py`).

The Python classes are shallowly embedded as explicit state passing:
a `ReaderState` mirrors the mutable fields of a `VideoReader` instance
(`_cap`, `_total_frames`, `_fps`, `_frame_cache`), a `Video` describes the
immutable backing video file (what `cv2.VideoCapture` would report), and
each method becomes a function `... → ReaderState → Except VRError α ×
ReaderState` so that the state after a raised exception is still visible,
exactly as in Python where `raise` leaves the object as it was.
Decoded pixel buffers are abstracted by a decode identity (`frameId`):
each successful `cap.read()` yields a fresh identity, so "the identical
cached object" and "a fresh decode" are expressible.
-/

namespace SceneDetect

/-- The immutable description of one backing video file, i.e. what the
decoder session (`cv2.VideoCapture`) reports for it.  `readOk p` tells
whether `cap.read()` succeeds after seeking to position `p` (modelling the
`ret` flag; truncated streams return `false` near the end). -/
structure Video where
  totalFrames : Nat
  fps : ℚ
  readOk : Int → Bool

/-- `FrameData` (src/utils/video_reader.py:8-13): one decoded frame plus
metadata.  The numpy pixel array is abstracted by `frameId`, the identity
of the decode call that produced it. -/
structure FrameData where
  frameId : Nat
  position : Int
  timestamp : ℚ
  deriving DecidableEq, Repr

/-- The mutable fields of a `VideoReader` instance
(src/utils/video_reader.py:26-40): `isOpen` is `_cap is not None`,
`totalFramesF`/`fpsF` are `_total_frames`/`_fps` (None until populated by
`open`), `cache` is `_frame_cache` as an insertion-ordered association
list, and `decodes` counts the `cap.read()` calls performed so far. -/
structure ReaderState where
  isOpen : Bool
  totalFramesF : Option Nat
  fpsF : Option ℚ
  cache : List (Int × FrameData)
  decodes : Nat
  deriving DecidableEq, Repr

/-- Errors raised by the reader: `fileNotFound` is `FileNotFoundError`
(constructor), `rangeError` is the `ValueError` for an out-of-range
position, `decodeError` is the `RuntimeError` for a failed read, and
`valueError` the `ValueError` raised by `range()` on step 0. -/
inductive VRError where
  | fileNotFound (path : String)
  | rangeError (position : Int) (total : Nat)
  | decodeError (position : Int)
  | valueError
  deriving DecidableEq, Repr

/-- The state set up by `VideoReader.__init__`
(src/utils/video_reader.py:37-40): no capture, no metadata, empty cache. -/
def initState : ReaderState :=
  { isOpen := false, totalFramesF := none, fpsF := none, cache := [], decodes := 0 }

/-- `VideoReader.__init__` (src/utils/video_reader.py:26-40): the
filesystem is modelled as the list of existing paths; a missing path
raises `FileNotFoundError` before any state is created, an existing one
yields the lazy `initState` (no decoder session yet). -/
def videoReaderInit (files : List String) (path : String) : Except VRError ReaderState :=
  if path ∈ files then .ok initState else .error (.fileNotFound path)

/-- `VideoReader.open` (src/utils/video_reader.py:51-59): idempotent;
acquires the capture and populates `_total_frames` and `_fps`.  The model
restricts attention to videos the decoder can open, so no `OpenError`
branch appears (none of the verified claims concerns it). -/
def openCap (v : Video) (s : ReaderState) : ReaderState :=
  if s.isOpen then s
  else { s with isOpen := true, totalFramesF := some v.totalFrames, fpsF := some v.fps }

/-- `VideoReader.close` (src/utils/video_reader.py:61-66): releases the
capture if open, and clears the cache unconditionally. -/
def closeCap (s : ReaderState) : ReaderState :=
  { s with isOpen := false, cache := [] }

/-- The `total_frames` property (src/utils/video_reader.py:68-73):
implicit open when `_total_frames is None`, then return the field. -/
def totalFramesProp (v : Video) (s : ReaderState) : Nat × ReaderState :=
  if s.totalFramesF.isNone then
    let s' := openCap v s
    (s'.totalFramesF.getD v.totalFrames, s')
  else (s.totalFramesF.getD v.totalFrames, s)

/-- The `fps` property (src/utils/video_reader.py:75-80). -/
def fpsProp (v : Video) (s : ReaderState) : ℚ × ReaderState :=
  if s.fpsF.isNone then
    let s' := openCap v s
    (s'.fpsF.getD v.fps, s')
  else (s.fpsF.getD v.fps, s)

/-- Lookup in the `_frame_cache` dict (`position in self._frame_cache` /
`self._frame_cache[position]`). -/
def cacheLookup (p : Int) : List (Int × FrameData) → Option FrameData
  | [] => none
  | (k, fd) :: rest => if k = p then some fd else cacheLookup p rest

/-- Dict assignment `self._frame_cache[position] = frame_data`: replace an
existing entry in place, otherwise append (Python dicts keep insertion
order). -/
def cacheInsert (p : Int) (fd : FrameData) (c : List (Int × FrameData)) :
    List (Int × FrameData) :=
  if (cacheLookup p c).isSome then
    c.map (fun e => if e.1 = p then (p, fd) else e)
  else c ++ [(p, fd)]

/-- `VideoReader.get_frame_at_position` (src/utils/video_reader.py:82-114),
step by step: range check against the `total_frames` property, cache
lookup when `use_cache`, implicit open, seek + read (one decode attempt,
counted), `RuntimeError` when the read fails, timestamp from the `fps`
property, and cache store when `use_cache`. -/
def get_frame_at_position (v : Video) (position : Int) (use_cache : Bool)
    (s0 : ReaderState) : Except VRError FrameData × ReaderState :=
  let t := totalFramesProp v s0
  let total := t.1
  let s1 := t.2
  if ¬ (0 ≤ position ∧ position < (total : Int)) then
    (.error (.rangeError position total), s1)
  else
    match (if use_cache then cacheLookup position s1.cache else none) with
    | some fd => (.ok fd, s1)
    | none =>
      let s2 := openCap v s1
      let readId := s2.decodes
      let s3 : ReaderState := { s2 with decodes := s2.decodes + 1 }
      if v.readOk position then
        let f := fpsProp v s3
        let fd : FrameData :=
          { frameId := readId, position := position, timestamp := (position : ℚ) / f.1 }
        let s4 := f.2
        let s5 := if use_cache then { s4 with cache := cacheInsert position fd s4.cache } else s4
        (.ok fd, s5)
      else (.error (.decodeError position), s3)

mutual

/-- A position specification as accepted by `get_frames`: an integer or an
arbitrarily nested sequence (list/tuple) of such, mixed freely. -/
inductive PosSpec where
  | pos (n : Int)
  | seq (items : PosList)

/-- The spine of one nested position sequence; a mutual inductive with
`PosSpec` so the flattening recursion is structural. -/
inductive PosList where
  | nil
  | cons (head : PosSpec) (tail : PosList)

end

/-- The top-level argument of `get_frames` is a Python list: embed a plain
`List Int` of positions as the corresponding flat `PosList`. -/
def ofInts : List Int → PosList
  | [] => .nil
  | n :: rest => .cons (.pos n) (ofInts rest)

mutual

/-- One step of `VideoReader._flatten_positions`
(src/utils/video_reader.py:225-229): an integer contributes itself, a
nested sequence its recursive flattening. -/
def flatten_one : PosSpec → List Int
  | .pos n => [n]
  | .seq items => flatten_positions items

/-- `VideoReader._flatten_positions` (src/utils/video_reader.py:213-231):
recursive-descent flatten of the nested structure, in encounter order. -/
def flatten_positions : PosList → List Int
  | .nil => []
  | .cons x rest => flatten_one x ++ flatten_positions rest

end

/-- `sorted(set(xs))` on integers: deduplicate, then sort ascending. -/
def uniqueSorted (l : List Int) : List Int :=
  l.dedup.insertionSort (· ≤ ·)

/-- The retrieval loop of `get_frames`
(src/utils/video_reader.py:134-137): fetch each position in turn,
propagating the first exception (the partial frame list is discarded, but
the state mutations made so far persist, as in Python). -/
def get_frames_loop (v : Video) (use_cache : Bool) :
    List Int → ReaderState → Except VRError (List FrameData) × ReaderState
  | [], s => (.ok [], s)
  | p :: ps, s =>
    let r := get_frame_at_position v p use_cache s
    match r.1 with
    | .error e => (.error e, r.2)
    | .ok fd =>
      let r2 := get_frames_loop v use_cache ps r.2
      match r2.1 with
      | .error e => (.error e, r2.2)
      | .ok rest => (.ok (fd :: rest), r2.2)

/-- `VideoReader.get_frames` (src/utils/video_reader.py:116-139): flatten,
`sorted(set(...))`, then fetch each unique position in ascending order. -/
def get_frames (v : Video) (positions : PosList) (use_cache : Bool)
    (s : ReaderState) : Except VRError (List FrameData) × ReaderState :=
  get_frames_loop v use_cache (uniqueSorted (flatten_positions positions)) s

/-- Python `range(a, b+1, step)` over integers for `step ≥ 1`: the
elements `a, a+step, ...` not exceeding `b`. -/
def intRangeStep (a b : Int) (step : Nat) : List Int :=
  (List.range (((b + 1 - a).toNat + step - 1) / step)).map
    (fun i : Nat => a + (step : Int) * (i : Int))

/-- Python `range(a, b+1)` over integers: `a, a+1, ..., b`. -/
def intRange (a b : Int) : List Int :=
  (List.range (b + 1 - a).toNat).map (fun i : Nat => a + (i : Int))

/-- `VideoReader.get_frames_from_ranges` (src/utils/video_reader.py:141-160):
swap each reversed `(start, end)` pair, expand with
`range(start, end+1, step)` (`range` raises `ValueError` on step 0), and
union everything through `get_frames`. -/
def get_frames_from_ranges (v : Video) (ranges : List (Int × Int)) (step : Nat)
    (use_cache : Bool) (s : ReaderState) : Except VRError (List FrameData) × ReaderState :=
  if step = 0 then (.error .valueError, s)
  else
    let positions := ranges.flatMap (fun r =>
      let p := if r.1 > r.2 then (r.2, r.1) else r
      intRangeStep p.1 p.2 step)
    get_frames v (ofInts positions) use_cache s

/-- `VideoReader.get_frames_around_positions`
(src/utils/video_reader.py:162-184): `half_window = window_size // 2`;
each centre `pos` contributes `range(max(0, pos-half), min(total-1,
pos+half) + 1)`; the union goes through `get_frames`.  `self.total_frames`
is read inside the loop body, hence only when `positions` is nonempty. -/
def get_frames_around_positions (v : Video) (positions : List Int)
    (window_size : Nat) (use_cache : Bool) (s : ReaderState) :
    Except VRError (List FrameData) × ReaderState :=
  let half : Nat := window_size / 2
  match positions with
  | [] => get_frames v (ofInts []) use_cache s
  | _ =>
    let t := totalFramesProp v s
    let total := t.1
    let s1 := t.2
    let allPositions := positions.flatMap (fun pos =>
      intRange (max 0 (pos - (half : Int))) (min ((total : Int) - 1) (pos + (half : Int))))
    get_frames v (ofInts allPositions) use_cache s1

/-- `VideoReader.extract_frames_batch` (src/utils/video_reader.py:186-211):
the reader-state effect is exactly `get_frames` with the default
`use_cache=True`; the optional image writing is filesystem-external. -/
def extract_frames_batch (v : Video) (positions : PosList)
    (s : ReaderState) : Except VRError (List FrameData) × ReaderState :=
  get_frames v positions true s

/-- `VideoReader.get_video_info` (src/utils/video_reader.py:233-250): its
only effect on the reader state is the implicit open. -/
def get_video_info_state (v : Video) (s : ReaderState) : ReaderState :=
  openCap v s

/-! ### The sequence/label generation of `AutoshotDataset` -/

/-- One shot-boundary annotation `{'from': ..., 'to': ...}` as consumed by
`AutoshotDataset._generate_sequences` (src/autoshot_dataloader.py:89-91). -/
structure Boundary where
  fromFrame : Int
  toFrame : Int
  deriving DecidableEq, Repr

/-- One entry of `self.sequences` (src/autoshot_dataloader.py:113-119),
minus the back-reference to the whole video record. -/
structure SequenceInfo where
  start_frame : Int
  end_frame : Int
  frame_positions : List Int
  boundary : Boundary
  deriving DecidableEq, Repr

/-- The `sequence_info` dict built at src/autoshot_dataloader.py:113-119:
`frame_positions = list(range(start_frame, start_frame + sequence_length))`. -/
def makeWindow (sequence_length : Nat) (b : Boundary) (start : Int) : SequenceInfo :=
  { start_frame := start
    end_frame := start + (sequence_length : Int) - 1
    frame_positions := (List.range sequence_length).map (fun i : Nat => start + (i : Int))
    boundary := b }

/-- The clamp at src/autoshot_dataloader.py:109-110 (and 123-124):
`start = max(0, start)` followed by `start = min(start, total_frames -
sequence_length)` — note the order: `min` is applied last. -/
def clampStart (total_frames sequence_length : Nat) (start : Int) : Int :=
  min (max 0 start) ((total_frames : Int) - (sequence_length : Int))

/-- The per-boundary body of `AutoshotDataset._generate_sequences`
(src/autoshot_dataloader.py:89-134); the method itself runs this for
every boundary of every valid video and concatenates the results.
`jitter` is `self.random_offset_range`; the values drawn by
`random.randint(-jitter, jitter)` in the three augmentation trials are
passed explicitly as `offsets` (the source uses ambient randomness), so
the `jitter > 0` branch consumes one offset per trial. -/
def generate_for_boundary (total_frames sequence_length jitter : Nat)
    (offsets : List Int) (b : Boundary) : List SequenceInfo :=
  let transition_center := Int.fdiv (b.fromFrame + b.toFrame) 2
  let half_length : Nat := sequence_length / 2
  let base_start := transition_center - (half_length : Int)
  if 0 < jitter then
    offsets.filterMap (fun offset =>
      let start := clampStart total_frames sequence_length (base_start + offset)
      if start + (sequence_length : Int) ≤ (total_frames : Int) then
        some (makeWindow sequence_length b start)
      else none)
  else
    let start := clampStart total_frames sequence_length base_start
    if start + (sequence_length : Int) ≤ (total_frames : Int) then
      [makeWindow sequence_length b start]
    else []

/-- The per-position label rule of `AutoshotDataset._get_scene_labels`
(src/autoshot_dataloader.py:154-162): `0` when `p <= from`, else `2` when
`p >= to`, else `1`. -/
def scene_label (b : Boundary) (p : Int) : Nat :=
  if p ≤ b.fromFrame then 0
  else if p ≥ b.toFrame then 2
  else 1

/-- `AutoshotDataset._get_scene_labels` (src/autoshot_dataloader.py:138-164):
one label per position of the window, against the window's boundary. -/
def get_scene_labels (si : SequenceInfo) : List Nat :=
  si.frame_positions.map (scene_label si.boundary)

/-! ### Well-formed reader states

Every state reachable from `initState` keeps the lazily populated
metadata fields consistent with the backing video and stores each cached
frame under its own position.  All reader lemmas are relative to this
well-formedness. -/

/-- A reader state is well-formed for a video when `_total_frames` and
`_fps` are either unpopulated or hold the video's values, and every cache
entry is keyed by the position of the frame it stores. -/
def ReaderState.WF (v : Video) (s : ReaderState) : Prop :=
  (s.totalFramesF = none ∨ s.totalFramesF = some v.totalFrames) ∧
  (s.fpsF = none ∨ s.fpsF = some v.fps) ∧
  ∀ e ∈ s.cache, e.2.position = e.1

theorem initState_WF (v : Video) : initState.WF v := by
  simp [ReaderState.WF, initState]

theorem openCap_cache (v : Video) (s : ReaderState) : (openCap v s).cache = s.cache := by
  unfold openCap; split <;> rfl

theorem openCap_decodes (v : Video) (s : ReaderState) :
    (openCap v s).decodes = s.decodes := by
  unfold openCap; split <;> rfl

theorem openCap_isOpen (v : Video) (s : ReaderState) : (openCap v s).isOpen = true := by
  unfold openCap; split <;> simp_all

theorem openCap_WF (v : Video) (s : ReaderState) (h : s.WF v) : (openCap v s).WF v := by
  unfold openCap; split
  · exact h
  · exact ⟨Or.inr rfl, Or.inr rfl, h.2.2⟩

theorem totalFramesProp_fst (v : Video) (s : ReaderState) (h : s.WF v) :
    (totalFramesProp v s).1 = v.totalFrames := by
  have h1 := h.1
  unfold totalFramesProp openCap
  rcases h1 with h1 | h1
  · simp only [h1, Option.isNone_none, if_true]
    split <;> simp [h1]
  · simp [h1]

theorem totalFramesProp_cache (v : Video) (s : ReaderState) :
    (totalFramesProp v s).2.cache = s.cache := by
  unfold totalFramesProp
  split
  · simpa using openCap_cache v s
  · rfl

theorem totalFramesProp_decodes (v : Video) (s : ReaderState) :
    (totalFramesProp v s).2.decodes = s.decodes := by
  unfold totalFramesProp
  split
  · simpa using openCap_decodes v s
  · rfl

theorem totalFramesProp_WF (v : Video) (s : ReaderState) (h : s.WF v) :
    (totalFramesProp v s).2.WF v := by
  unfold totalFramesProp
  split
  · simpa using openCap_WF v s h
  · exact h

theorem totalFramesProp_stable (v : Video) (s : ReaderState) (h : s.WF v)
    (ho : s.isOpen = true) : totalFramesProp v s = (v.totalFrames, s) := by
  have h1 := h.1
  unfold totalFramesProp openCap
  rcases h1 with h1 | h1
  · simp [h1, ho]
  · simp [h1]

theorem totalFramesProp_isOpen_or (v : Video) (s : ReaderState) :
    (totalFramesProp v s).2 = s ∨ (totalFramesProp v s).2.isOpen = true := by
  unfold totalFramesProp
  split
  · exact Or.inr (by simpa using openCap_isOpen v s)
  · exact Or.inl rfl

theorem totalFramesProp_totalF (v : Video) (s : ReaderState) :
    (totalFramesProp v s).2.totalFramesF = s.totalFramesF ∨
      (totalFramesProp v s).2.totalFramesF = some v.totalFrames := by
  unfold totalFramesProp openCap
  split
  · split
    · exact Or.inl rfl
    · exact Or.inr rfl
  · exact Or.inl rfl

theorem totalFramesProp_idem (v : Video) (s : ReaderState) (h : s.WF v) :
    totalFramesProp v (totalFramesProp v s).2 = (v.totalFrames, (totalFramesProp v s).2) := by
  by_cases ho : s.isOpen = true
  · rw [totalFramesProp_stable v s h ho, totalFramesProp_stable v s h ho]
  · have h1 := h.1
    unfold totalFramesProp openCap
    rcases h1 with h1 | h1
    · simp [h1, ho]
    · simp [h1]

theorem fpsProp_cache (v : Video) (s : ReaderState) : (fpsProp v s).2.cache = s.cache := by
  unfold fpsProp
  split
  · simpa using openCap_cache v s
  · rfl

theorem fpsProp_decodes (v : Video) (s : ReaderState) :
    (fpsProp v s).2.decodes = s.decodes := by
  unfold fpsProp
  split
  · simpa using openCap_decodes v s
  · rfl

theorem fpsProp_WF (v : Video) (s : ReaderState) (h : s.WF v) : (fpsProp v s).2.WF v := by
  unfold fpsProp
  split
  · simpa using openCap_WF v s h
  · exact h

theorem fpsProp_isOpen (v : Video) (s : ReaderState) (ho : s.isOpen = true) :
    (fpsProp v s).2.isOpen = true := by
  unfold fpsProp
  split
  · simpa using openCap_isOpen v s
  · exact ho

theorem fpsProp_totalF (v : Video) (s : ReaderState) :
    (fpsProp v s).2.totalFramesF = s.totalFramesF ∨
      (fpsProp v s).2.totalFramesF = some v.totalFrames := by
  unfold fpsProp openCap
  split
  · split
    · exact Or.inl rfl
    · exact Or.inr rfl
  · exact Or.inl rfl

theorem cacheLookup_position (p : Int) (c : List (Int × FrameData))
    (hc : ∀ e ∈ c, e.2.position = e.1) (fd : FrameData)
    (h : cacheLookup p c = some fd) : fd.position = p := by
  induction c with
  | nil => simp [cacheLookup] at h
  | cons e rest ih =>
    obtain ⟨k, g⟩ := e
    simp only [cacheLookup] at h
    by_cases hk : k = p
    · rw [if_pos hk] at h
      injection h with h
      subst h
      have hg := hc (k, g) (List.mem_cons_self _ _)
      simp only at hg
      rw [hg, hk]
    · rw [if_neg hk] at h
      exact ih (fun e he => hc e (List.mem_cons_of_mem _ he)) h

theorem cacheLookup_append_none (p : Int) (c₁ c₂ : List (Int × FrameData))
    (h : cacheLookup p c₁ = none) :
    cacheLookup p (c₁ ++ c₂) = cacheLookup p c₂ := by
  induction c₁ with
  | nil => rfl
  | cons e rest ih =>
    obtain ⟨k, g⟩ := e
    simp only [cacheLookup] at h
    by_cases hk : k = p
    · rw [if_pos hk] at h
      exact absurd h (by simp)
    · rw [if_neg hk] at h
      rw [List.cons_append]
      simp only [cacheLookup]
      rw [if_neg hk]
      exact ih h

theorem cacheLookup_cacheInsert_self (p : Int) (fd : FrameData)
    (c : List (Int × FrameData)) :
    cacheLookup p (cacheInsert p fd c) = some fd := by
  unfold cacheInsert
  split
  · rename_i hsome
    induction c with
    | nil => simp [cacheLookup] at hsome
    | cons e rest ih =>
      obtain ⟨k, g⟩ := e
      by_cases hk : k = p
      · simp only [List.map_cons, if_pos hk]
        simp [cacheLookup]
      · simp only [List.map_cons, if_neg hk]
        simp only [cacheLookup]
        rw [if_neg hk]
        apply ih
        simp only [cacheLookup] at hsome
        rwa [if_neg hk] at hsome
  · rename_i hnone
    simp only [Option.isSome_iff_exists] at hnone
    have hn : cacheLookup p c = none := by
      cases h : cacheLookup p c
      · rfl
      · exact absurd ⟨_, h⟩ hnone
    rw [cacheLookup_append_none p c _ hn]
    simp [cacheLookup]

theorem mem_cacheInsert (p : Int) (fd : FrameData) (c : List (Int × FrameData))
    (e : Int × FrameData) (h : e ∈ cacheInsert p fd c) : e = (p, fd) ∨ e ∈ c := by
  unfold cacheInsert at h
  split at h
  · obtain ⟨x, hx, hfx⟩ := List.mem_map.mp h
    by_cases hk : x.1 = p
    · rw [if_pos hk] at hfx
      exact Or.inl hfx.symm
    · rw [if_neg hk] at hfx
      exact Or.inr (hfx ▸ hx)
  · rcases List.mem_append.mp h with h' | h'
    · exact Or.inr h'
    · simp at h'
      exact Or.inl h'

theorem cacheInsert_WF (p : Int) (fd : FrameData)
    (c : List (Int × FrameData)) (hc : ∀ e ∈ c, e.2.position = e.1)
    (hp : fd.position = p) : ∀ e ∈ cacheInsert p fd c, e.2.position = e.1 := by
  intro e he
  rcases mem_cacheInsert p fd c e he with h | h
  · rw [h]; exact hp
  · exact hc e h

/-! ### Behaviour of `get_frame_at_position` on well-formed states -/

/-- On a well-formed state, an in-range position whose read succeeds
always yields `FrameData` carrying that position, and well-formedness is
preserved. -/
theorem get_frame_ok (v : Video) (p : Int) (uc : Bool) (s : ReaderState)
    (hWF : s.WF v) (h0 : 0 ≤ p) (h1 : p < (v.totalFrames : Int))
    (hr : v.readOk p = true) :
    ∃ fd s', get_frame_at_position v p uc s = (.ok fd, s') ∧
      fd.position = p ∧ s'.WF v := by
  simp only [get_frame_at_position]
  rw [totalFramesProp_fst v s hWF]
  have hWF1 : (totalFramesProp v s).2.WF v := totalFramesProp_WF v s hWF
  rw [if_neg (not_not_intro ⟨h0, h1⟩)]
  cases hlk : (if uc then cacheLookup p (totalFramesProp v s).2.cache else none) with
  | some fd =>
    refine ⟨fd, (totalFramesProp v s).2, rfl, ?_, hWF1⟩
    cases uc with
    | false => simp at hlk
    | true =>
      simp only [if_true] at hlk
      exact cacheLookup_position p _ hWF1.2.2 fd hlk
  | none =>
    rw [hr]
    simp only
    set s2 := openCap v (totalFramesProp v s).2 with hs2
    have hWF2 : s2.WF v := openCap_WF v _ hWF1
    have hWF3 : (ReaderState.mk s2.isOpen s2.totalFramesF s2.fpsF s2.cache
        (s2.decodes + 1)).WF v := ⟨hWF2.1, hWF2.2.1, hWF2.2.2⟩
    set s3 : ReaderState := { s2 with decodes := s2.decodes + 1 } with hs3
    have hWF4 : (fpsProp v s3).2.WF v := fpsProp_WF v s3 hWF3
    cases uc with
    | false => exact ⟨_, _, rfl, rfl, hWF4⟩
    | true =>
      refine ⟨_, _, rfl, rfl, ?_⟩
      refine ⟨hWF4.1, hWF4.2.1, ?_⟩
      exact cacheInsert_WF p _ _ hWF4.2.2 rfl

/-- Out-of-range positions fail with the range `ValueError` raised at
src/utils/video_reader.py:93-94, before the cache check, the seek and the
read: the state after the exception has the cache and the decode count of
the state before the call. -/
theorem get_frame_range_error (v : Video) (p : Int) (uc : Bool) (s : ReaderState)
    (hWF : s.WF v) (hout : ¬ (0 ≤ p ∧ p < (v.totalFrames : Int))) :
    get_frame_at_position v p uc s =
      (.error (.rangeError p v.totalFrames), (totalFramesProp v s).2) := by
  simp only [get_frame_at_position]
  rw [totalFramesProp_fst v s hWF]
  rw [if_pos hout]

/-- An in-range position never takes the range-error branch, whatever the
cache flag and whether the read succeeds. -/
theorem get_frame_no_range_error (v : Video) (p : Int) (uc : Bool) (s : ReaderState)
    (hWF : s.WF v) (h0 : 0 ≤ p) (h1 : p < (v.totalFrames : Int)) :
    ∀ q t, (get_frame_at_position v p uc s).1 ≠ .error (.rangeError q t) := by
  intro q t
  simp only [get_frame_at_position]
  rw [totalFramesProp_fst v s hWF]
  rw [if_neg (not_not_intro ⟨h0, h1⟩)]
  cases hlk : (if uc then cacheLookup p (totalFramesProp v s).2.cache else none) with
  | some fd => simp
  | none =>
    cases hre : v.readOk p <;> simp

/-- `get_frame_at_position` with `use_cache=True`: the result is stored in
the returned state's cache under its position, and the returned state
answers its `total_frames` property without further change (it is "warm"):
this is what makes a repeated call return the very same object. -/
theorem get_frame_cached_after (v : Video) (p : Int) (s : ReaderState)
    (hWF : s.WF v) (h0 : 0 ≤ p) (h1 : p < (v.totalFrames : Int))
    (hr : v.readOk p = true) :
    ∃ fd s1, get_frame_at_position v p true s = (.ok fd, s1) ∧
      cacheLookup p s1.cache = some fd ∧ s1.WF v ∧
      totalFramesProp v s1 = (v.totalFrames, s1) := by
  simp only [get_frame_at_position]
  rw [totalFramesProp_fst v s hWF]
  have hWF1 : (totalFramesProp v s).2.WF v := totalFramesProp_WF v s hWF
  rw [if_neg (not_not_intro ⟨h0, h1⟩)]
  simp only [if_true]
  cases hlk : cacheLookup p (totalFramesProp v s).2.cache with
  | some fd =>
    exact ⟨fd, (totalFramesProp v s).2, rfl, hlk, hWF1, totalFramesProp_idem v s hWF⟩
  | none =>
    rw [hr]
    simp only [if_true]
    set s2 := openCap v (totalFramesProp v s).2 with hs2
    have hWF2 : s2.WF v := openCap_WF v _ hWF1
    have hWF3 : (ReaderState.mk s2.isOpen s2.totalFramesF s2.fpsF s2.cache
        (s2.decodes + 1)).WF v := ⟨hWF2.1, hWF2.2.1, hWF2.2.2⟩
    set s3 : ReaderState := { s2 with decodes := s2.decodes + 1 } with hs3
    have hWF4 : (fpsProp v s3).2.WF v := fpsProp_WF v s3 hWF3
    have hopen3 : s3.isOpen = true := by
      have := openCap_isOpen v (totalFramesProp v s).2
      simpa [hs3, hs2] using this
    have hopen4 : (fpsProp v s3).2.isOpen = true := fpsProp_isOpen v s3 hopen3
    refine ⟨_, _, rfl, ?_, ?_, ?_⟩
    · exact cacheLookup_cacheInsert_self p _ _
    · exact ⟨hWF4.1, hWF4.2.1, cacheInsert_WF p _ _ hWF4.2.2 rfl⟩
    · apply totalFramesProp_stable
      · exact ⟨hWF4.1, hWF4.2.1, cacheInsert_WF p _ _ hWF4.2.2 rfl⟩
      · exact hopen4

/-- `get_frame_at_position` with `use_cache=False` always performs one
fresh read and leaves the cache mapping exactly as it was: it neither
consults nor stores an entry. -/
theorem get_frame_nocache (v : Video) (p : Int) (s : ReaderState)
    (hWF : s.WF v) (h0 : 0 ≤ p) (h1 : p < (v.totalFrames : Int))
    (hr : v.readOk p = true) :
    ∃ fd s2, get_frame_at_position v p false s = (.ok fd, s2) ∧
      s2.cache = s.cache ∧ s2.decodes = s.decodes + 1 := by
  simp only [get_frame_at_position]
  rw [totalFramesProp_fst v s hWF]
  rw [if_neg (not_not_intro ⟨h0, h1⟩)]
  simp only [Bool.false_eq_true, if_false, hr, if_true]
  refine ⟨_, _, rfl, ?_, ?_⟩
  · rw [fpsProp_cache]
    simp only [openCap_cache]
    exact totalFramesProp_cache v s
  · rw [fpsProp_decodes]
    simp only [openCap_decodes]
    rw [totalFramesProp_decodes v s]

/-- A cached call on a warm state is a pure lookup: it returns the cached
object and changes nothing. -/
theorem get_frame_cache_hit (v : Video) (p : Int) (s1 : ReaderState) (fd : FrameData)
    (hstable : totalFramesProp v s1 = (v.totalFrames, s1))
    (h0 : 0 ≤ p) (h1 : p < (v.totalFrames : Int))
    (hlk : cacheLookup p s1.cache = some fd) :
    get_frame_at_position v p true s1 = (.ok fd, s1) := by
  simp only [get_frame_at_position]
  rw [hstable]
  simp only
  rw [if_neg (not_not_intro ⟨h0, h1⟩)]
  simp only [if_true]
  rw [hlk]

/-- The fetch loop of `get_frames` on in-range, readable positions:
it succeeds and returns one frame per requested position, in request
order, preserving well-formedness. -/
theorem get_frames_loop_ok (v : Video) (uc : Bool) (ps : List Int) :
    ∀ s : ReaderState, s.WF v →
    (∀ p ∈ ps, 0 ≤ p ∧ p < (v.totalFrames : Int) ∧ v.readOk p = true) →
    ∃ frames s', get_frames_loop v uc ps s = (.ok frames, s') ∧
      frames.map FrameData.position = ps ∧ s'.WF v := by
  induction ps with
  | nil => exact fun s hWF _ => ⟨[], s, rfl, rfl, hWF⟩
  | cons p ps ih =>
    intro s hWF hps
    obtain ⟨h0, h1, hr⟩ := hps p (List.mem_cons_self _ _)
    obtain ⟨fd, s1, hgf, hpos, hWF1⟩ := get_frame_ok v p uc s hWF h0 h1 hr
    obtain ⟨rest, s2, hloop, hmap, hWF2⟩ :=
      ih s1 hWF1 (fun q hq => hps q (List.mem_cons_of_mem _ hq))
    refine ⟨fd :: rest, s2, ?_, ?_, hWF2⟩
    · simp only [get_frames_loop, hgf, hloop]
    · simp [hpos, hmap]

/-! ### The cache-key invariant (reachable states) -/

/-- The invariant of claim C10: well-formedness plus every cache key in
`[0, total_frame_count)`. -/
def Inv (v : Video) (s : ReaderState) : Prop :=
  s.WF v ∧ ∀ e ∈ s.cache, 0 ≤ e.1 ∧ e.1 < (v.totalFrames : Int)

theorem initState_Inv (v : Video) : Inv v initState := by
  exact ⟨initState_WF v, by simp [initState]⟩

theorem openCap_Inv (v : Video) (s : ReaderState) (h : Inv v s) : Inv v (openCap v s) := by
  refine ⟨openCap_WF v s h.1, ?_⟩
  rw [openCap_cache]
  exact h.2

theorem closeCap_Inv (v : Video) (s : ReaderState) (h : Inv v s) : Inv v (closeCap s) := by
  exact ⟨⟨h.1.1, h.1.2.1, by simp [closeCap]⟩, by simp [closeCap]⟩

theorem totalFramesProp_Inv (v : Video) (s : ReaderState) (h : Inv v s) :
    Inv v (totalFramesProp v s).2 := by
  refine ⟨totalFramesProp_WF v s h.1, ?_⟩
  rw [totalFramesProp_cache]
  exact h.2

theorem fpsProp_Inv (v : Video) (s : ReaderState) (h : Inv v s) :
    Inv v (fpsProp v s).2 := by
  refine ⟨fpsProp_WF v s h.1, ?_⟩
  rw [fpsProp_cache]
  exact h.2

/-- One `get_frame_at_position` call, whatever its arguments and outcome,
preserves the cache-key invariant: an entry is only ever inserted after
the range check has passed. -/
theorem get_frame_Inv (v : Video) (p : Int) (uc : Bool) (s : ReaderState)
    (h : Inv v s) : Inv v (get_frame_at_position v p uc s).2 := by
  simp only [get_frame_at_position]
  rw [totalFramesProp_fst v s h.1]
  by_cases hin : 0 ≤ p ∧ p < (v.totalFrames : Int)
  · rw [if_neg (not_not_intro hin)]
    cases hlk : (if uc then cacheLookup p (totalFramesProp v s).2.cache else none) with
    | some fd => exact totalFramesProp_Inv v s h
    | none =>
      have h1 : Inv v (openCap v (totalFramesProp v s).2) :=
        openCap_Inv v _ (totalFramesProp_Inv v s h)
      set s2 := openCap v (totalFramesProp v s).2 with hs2
      have h3 : Inv v (ReaderState.mk s2.isOpen s2.totalFramesF s2.fpsF s2.cache
          (s2.decodes + 1)) := ⟨⟨h1.1.1, h1.1.2.1, h1.1.2.2⟩, h1.2⟩
      set s3 : ReaderState := { s2 with decodes := s2.decodes + 1 } with hs3
      have h4 : Inv v (fpsProp v s3).2 := fpsProp_Inv v s3 h3
      cases hre : v.readOk p with
      | false => simp only [if_false]; exact h3
      | true =>
        simp only [if_true]
        cases uc with
        | false => exact h4
        | true =>
          simp only
          refine ⟨⟨h4.1.1, h4.1.2.1, cacheInsert_WF p _ _ h4.1.2.2 rfl⟩, ?_⟩
          intro e he
          rcases mem_cacheInsert p _ _ e he with heq | hmem
          · rw [heq]; exact hin
          · exact h4.2 e hmem
  · rw [if_pos hin]
    exact totalFramesProp_Inv v s h

theorem get_frames_loop_Inv (v : Video) (uc : Bool) (ps : List Int) :
    ∀ s : ReaderState, Inv v s → Inv v (get_frames_loop v uc ps s).2 := by
  induction ps with
  | nil => exact fun s h => h
  | cons p ps ih =>
    intro s h
    simp only [get_frames_loop]
    rcases hgf : get_frame_at_position v p uc s with ⟨r, s1⟩
    have h1 : Inv v s1 := by
      have := get_frame_Inv v p uc s h
      rwa [hgf] at this
    simp only [hgf]
    cases r with
    | error e => exact h1
    | ok fd =>
      simp only
      rcases hloop : get_frames_loop v uc ps s1 with ⟨r2, s2⟩
      have h2 : Inv v s2 := by
        have := ih s1 h1
        rwa [hloop] at this
      simp only [hloop]
      cases r2 with
      | error e => exact h2
      | ok rest => exact h2

theorem get_frames_Inv (v : Video) (positions : PosList) (uc : Bool)
    (s : ReaderState) (h : Inv v s) : Inv v (get_frames v positions uc s).2 :=
  get_frames_loop_Inv v uc _ s h

theorem get_frames_from_ranges_Inv (v : Video) (ranges : List (Int × Int))
    (step : Nat) (uc : Bool) (s : ReaderState) (h : Inv v s) :
    Inv v (get_frames_from_ranges v ranges step uc s).2 := by
  unfold get_frames_from_ranges
  split
  · exact h
  · exact get_frames_Inv v _ uc s h

theorem get_frames_around_Inv (v : Video) (positions : List Int)
    (window_size : Nat) (uc : Bool) (s : ReaderState) (h : Inv v s) :
    Inv v (get_frames_around_positions v positions window_size uc s).2 := by
  unfold get_frames_around_positions
  cases positions with
  | nil => exact get_frames_Inv v _ uc s h
  | cons p rest =>
    exact get_frames_Inv v _ uc _ (totalFramesProp_Inv v s h)

/-! ### `sorted(set(...))`, flattening and integer ranges -/

theorem mem_uniqueSorted (a : Int) (l : List Int) : a ∈ uniqueSorted l ↔ a ∈ l := by
  unfold uniqueSorted
  rw [(List.perm_insertionSort _ _).mem_iff, List.mem_dedup]

theorem uniqueSorted_sorted (l : List Int) : (uniqueSorted l).Sorted (· < ·) := by
  have hs : (uniqueSorted l).Sorted (· ≤ ·) := List.sorted_insertionSort _ _
  have hn : (uniqueSorted l).Nodup :=
    ((List.perm_insertionSort _ _).nodup_iff).mpr (List.nodup_dedup l)
  exact hs.lt_of_le hn

theorem flatten_ofInts (l : List Int) :
    flatten_positions (ofInts l) = l := by
  induction l with
  | nil => rfl
  | cons x xs ih => simp only [ofInts, flatten_positions, flatten_one, ih, List.singleton_append]

theorem mem_intRange (a b q : Int) : q ∈ intRange a b ↔ a ≤ q ∧ q ≤ b := by
  unfold intRange
  constructor
  · intro hq
    obtain ⟨i, hi, hiq⟩ := List.mem_map.mp hq
    rw [List.mem_range] at hi
    omega
  · rintro ⟨h1, h2⟩
    refine List.mem_map.mpr ⟨(q - a).toNat, ?_, ?_⟩
    · rw [List.mem_range]
      omega
    · omega

theorem intRange_length (a b : Int) : (intRange a b).length = (b + 1 - a).toNat := by
  unfold intRange
  rw [List.length_map, List.length_range]

/-- `get_frames` on in-range, readable positions returns exactly one frame
per unique requested position, in ascending order. -/
theorem get_frames_spec (v : Video) (L : PosList) (uc : Bool) (s : ReaderState)
    (hWF : s.WF v)
    (hok : ∀ p ∈ flatten_positions L,
      0 ≤ p ∧ p < (v.totalFrames : Int) ∧ v.readOk p = true) :
    ∃ frames s', get_frames v L uc s = (.ok frames, s') ∧
      frames.map FrameData.position = uniqueSorted (flatten_positions L) ∧ s'.WF v :=
  get_frames_loop_ok v uc _ s hWF (fun p hp => hok p ((mem_uniqueSorted p _).mp hp))

/-! ### Label lemmas -/

theorem scene_label_mono (b : Boundary) {p q : Int} (h : p ≤ q) :
    scene_label b p ≤ scene_label b q := by
  unfold scene_label
  by_cases h1 : p ≤ b.fromFrame <;> by_cases h2 : q ≤ b.fromFrame <;>
    by_cases h3 : p ≥ b.toFrame <;> by_cases h4 : q ≥ b.toFrame <;>
    simp [h1, h2, h3, h4] <;> omega

theorem scene_label_cases (b : Boundary) (p : Int) :
    scene_label b p = 0 ∨ scene_label b p = 1 ∨ scene_label b p = 2 := by
  unfold scene_label
  by_cases h1 : p ≤ b.fromFrame <;> by_cases h2 : p ≥ b.toFrame <;> simp [h1, h2]

theorem scene_label_ne_one (b : Boundary) (h : b.toFrame ≤ b.fromFrame + 1)
    (p : Int) : scene_label b p ≠ 1 := by
  unfold scene_label
  by_cases h1 : p ≤ b.fromFrame <;> by_cases h2 : p ≥ b.toFrame <;>
    simp [h1, h2] <;> omega

/-! ### Operation traces over one reader -/

/-- One public `VideoReader` call, as an operation on the reader state
(arguments included, results discarded); used to state invariants over
arbitrary call sequences. -/
inductive FSOp where
  | opOpen
  | opClose
  | opGetFrame (p : Int) (useCache : Bool)
  | opGetFrames (ps : PosList) (useCache : Bool)
  | opGetFramesFromRanges (rs : List (Int × Int)) (step : Nat) (useCache : Bool)
  | opGetFramesAround (centers : List Int) (windowSize : Nat) (useCache : Bool)
  | opExtract (ps : PosList)
  | opTotalFrames
  | opFps
  | opGetVideoInfo

/-- The state after one call — also after a call that raised, since a
Python exception leaves the object in whatever state the method reached. -/
def runOp (v : Video) (op : FSOp) (s : ReaderState) : ReaderState :=
  match op with
  | .opOpen => openCap v s
  | .opClose => closeCap s
  | .opGetFrame p uc => (get_frame_at_position v p uc s).2
  | .opGetFrames ps uc => (get_frames v ps uc s).2
  | .opGetFramesFromRanges rs step uc => (get_frames_from_ranges v rs step uc s).2
  | .opGetFramesAround cs w uc => (get_frames_around_positions v cs w uc s).2
  | .opExtract ps => (extract_frames_batch v ps s).2
  | .opTotalFrames => (totalFramesProp v s).2
  | .opFps => (fpsProp v s).2
  | .opGetVideoInfo => get_video_info_state v s

theorem runOp_Inv (v : Video) (op : FSOp) (s : ReaderState) (h : Inv v s) :
    Inv v (runOp v op s) := by
  cases op with
  | opOpen => exact openCap_Inv v s h
  | opClose => exact closeCap_Inv v s h
  | opGetFrame p uc => exact get_frame_Inv v p uc s h
  | opGetFrames ps uc => exact get_frames_Inv v ps uc s h
  | opGetFramesFromRanges rs step uc => exact get_frames_from_ranges_Inv v rs step uc s h
  | opGetFramesAround cs w uc => exact get_frames_around_Inv v cs w uc s h
  | opExtract ps => exact get_frames_Inv v ps true s h
  | opTotalFrames => exact totalFramesProp_Inv v s h
  | opFps => exact fpsProp_Inv v s h
  | opGetVideoInfo => exact openCap_Inv v s h

theorem runOps_Inv (v : Video) (ops : List FSOp) :
    ∀ s : ReaderState, Inv v s → Inv v (ops.foldl (fun s op => runOp v op s) s) := by
  induction ops with
  | nil => exact fun s h => h
  | cons op ops ih =>
    intro s h
    exact ih (runOp v op s) (runOp_Inv v op s h)

/-! ### Concrete instances -/

instance (v : Video) (s : ReaderState) : Decidable (s.WF v) := by
  unfold ReaderState.WF
  infer_instance

/-- A concrete 100-frame, 25 fps video all of whose reads succeed. -/
def v100 : Video := { totalFrames := 100, fps := 25, readOk := fun _ => true }

/-- The nested, duplicated position request `[[20, 10], 10, [[5]]]`. -/
def demoSpec : PosList :=
  .cons (.seq (.cons (.pos 20) (.cons (.pos 10) .nil)))
    (.cons (.pos 10)
      (.cons (.seq (.cons (.seq (.cons (.pos 5) .nil)) .nil)) .nil))

/-! ### The claims -/

/-- C1: the claim says a video with `total_frames < sequence_length`
yields zero windows for every boundary, for jitter `J = 0` as well as
`J > 0`.  The code does not: it applies `max(0, ·)` first and
`min(·, total_frames - sequence_length)` second, so for a short video the
clamped start is the negative value `total_frames - sequence_length` and
the acceptance test `start + sequence_length <= total_frames` always
passes.  With `total_frames = 10`, `sequence_length = 16`, boundary
`(5, 6)`: one window for jitter 0, three windows for jitter 5 (whatever
the drawn offsets), each with `start_frame = -6`. -/
theorem c1_short_video_emits_windows :
    (generate_for_boundary 10 16 0 [] ⟨5, 6⟩).length = 1 ∧
    (generate_for_boundary 10 16 5 [-5, 0, 5] ⟨5, 6⟩).length = 3 ∧
    ∀ w ∈ generate_for_boundary 10 16 0 [] ⟨5, 6⟩, w.start_frame = -6 := by decide

/-- C2: the claim says every emitted window has `sequence_length`
contiguous positions all inside `[0, total_frames)`.  The length holds,
but the range invariant is violated: for `total_frames = 10`,
`sequence_length = 16`, boundary `(5, 6)`, jitter 0, the code emits a
window whose positions include `-6 < 0`. -/
theorem c2_emitted_window_outside_range :
    ∃ w ∈ generate_for_boundary 10 16 0 [] ⟨5, 6⟩,
      w.frame_positions.length = 16 ∧ (-6 : Int) ∈ w.frame_positions := by decide

/-- C3, counterexample: for `total_frames = 100`, boundary `(40, 41)`,
`sequence_length = 16`, jitter 0, the labels are not eight `0`s followed
by eight `2`s as the claim states. -/
theorem c3_labels_counterexample :
    (generate_for_boundary 100 16 0 [] ⟨40, 41⟩).map get_scene_labels ≠
      [[0, 0, 0, 0, 0, 0, 0, 0, 2, 2, 2, 2, 2, 2, 2, 2]] := by decide

/-- C3, amended: the single emitted window is `start=32`, `end=47`, and
its labels are nine `0`s followed by seven `2`s — position 40 satisfies
`p <= from_frame = 40` and is labelled `0`, so the split is 9/7, not 8/8. -/
theorem c3_scenario_a_amended :
    (generate_for_boundary 100 16 0 [] ⟨40, 41⟩).map
        (fun w => (w.start_frame, w.end_frame, get_scene_labels w)) =
      [(32, 47, [0, 0, 0, 0, 0, 0, 0, 0, 0, 2, 2, 2, 2, 2, 2, 2])] := by decide

/-- C4: for every position specification whose flattened values are in
range (and readable), `get_frames` succeeds and returns frames whose
positions are exactly `sorted(set(flatten(L)))`: strictly ascending, one
per unique requested position, independent of request order; the empty
specification is the special case with no positions. -/
theorem c4_get_frames_dedup_sorted (v : Video) (L : PosList) (uc : Bool)
    (s : ReaderState) (hWF : s.WF v)
    (hrange : ∀ p ∈ flatten_positions L, 0 ≤ p ∧ p < (v.totalFrames : Int))
    (hread : ∀ p ∈ flatten_positions L, v.readOk p = true) :
    ∃ frames s', get_frames v L uc s = (.ok frames, s') ∧
      (frames.map FrameData.position).Sorted (· < ·) ∧
      ∀ q : Int, q ∈ frames.map FrameData.position ↔ q ∈ flatten_positions L := by
  obtain ⟨frames, s', hcall, hmap, _⟩ := get_frames_spec v L uc s hWF
    (fun p hp => ⟨(hrange p hp).1, (hrange p hp).2, hread p hp⟩)
  refine ⟨frames, s', hcall, ?_, ?_⟩
  · rw [hmap]
    exact uniqueSorted_sorted _
  · intro q
    rw [hmap]
    exact mem_uniqueSorted q _

/-- Witness for C4 at the request `[[20, 10], 10, [[5]]]` on `v100`. -/
theorem c4_get_frames_dedup_sorted_witness :
    initState.WF v100 ∧
    (∃ frames s', get_frames v100 demoSpec true initState = (.ok frames, s') ∧
      (frames.map FrameData.position).Sorted (· < ·) ∧
      ∀ q : Int, q ∈ frames.map FrameData.position ↔ q ∈ flatten_positions demoSpec) :=
  ⟨by decide, c4_get_frames_dedup_sorted v100 demoSpec true initState (by decide)
    (by decide) (fun p _ => rfl)⟩

/-- C5, counterexample: the claim says each centre far from both video
boundaries contributes exactly `window_size` candidate positions.  For the
even size 4, centre 10 on the 100-frame `v100` contributes
`[8, 9, 10, 11, 12]` — five positions, not four: the code takes
`half = window_size // 2` positions on each side plus the centre. -/
theorem c5_even_window_counterexample :
    ∃ l, Except.map (List.map FrameData.position)
        (get_frames_around_positions v100 [10] 4 true initState).1 = .ok l ∧
      l.length = 5 ∧ ¬ l.length = 4 :=
  ⟨[8, 9, 10, 11, 12], rfl, rfl, by decide⟩

/-- C5, amended: `get_frames_around` expands each centre `p` to the
window `[max(0, p - w//2), min(total-1, p + w//2)]` and returns the
deduplicated ascending union of all windows; a centre far from both
boundaries contributes `2*(w//2) + 1` positions (that is `w` for odd `w`
and `w + 1` for even `w`), not exactly `w`. -/
theorem c5_frames_around_amended (v : Video) (centers : List Int) (w : Nat)
    (s : ReaderState) (hw : 1 ≤ w) (hWF : s.WF v)
    (hc : ∀ p ∈ centers, 0 ≤ p ∧ p < (v.totalFrames : Int))
    (hread : ∀ p : Int, v.readOk p = true) :
    ∃ frames s', get_frames_around_positions v centers w true s = (.ok frames, s') ∧
      (frames.map FrameData.position).Sorted (· < ·) ∧
      (∀ q : Int, q ∈ frames.map FrameData.position ↔
        ∃ p ∈ centers, max 0 (p - ((w / 2 : Nat) : Int)) ≤ q ∧
          q ≤ min ((v.totalFrames : Int) - 1) (p + ((w / 2 : Nat) : Int))) ∧
      (∀ p : Int, ((w / 2 : Nat) : Int) ≤ p →
        p + ((w / 2 : Nat) : Int) ≤ (v.totalFrames : Int) - 1 →
        (intRange (max 0 (p - ((w / 2 : Nat) : Int)))
            (min ((v.totalFrames : Int) - 1) (p + ((w / 2 : Nat) : Int)))).length
          = 2 * (w / 2) + 1) := by
  have hlen : ∀ p : Int, ((w / 2 : Nat) : Int) ≤ p →
      p + ((w / 2 : Nat) : Int) ≤ (v.totalFrames : Int) - 1 →
      (intRange (max 0 (p - ((w / 2 : Nat) : Int)))
          (min ((v.totalFrames : Int) - 1) (p + ((w / 2 : Nat) : Int)))).length
        = 2 * (w / 2) + 1 := by
    intro p hp1 hp2
    rw [max_eq_right (by omega), min_eq_right (by omega), intRange_length]
    omega
  cases centers with
  | nil =>
    refine ⟨[], s, rfl, by simp, ?_, hlen⟩
    intro q
    simp
  | cons c cs =>
    have hWF1 := totalFramesProp_WF v s hWF
    set L := (c :: cs).flatMap (fun pos =>
      intRange (max 0 (pos - ((w / 2 : Nat) : Int)))
        (min ((v.totalFrames : Int) - 1) (pos + ((w / 2 : Nat) : Int)))) with hL
    have hmemL : ∀ q : Int, q ∈ L ↔ ∃ p ∈ c :: cs,
        max 0 (p - ((w / 2 : Nat) : Int)) ≤ q ∧
        q ≤ min ((v.totalFrames : Int) - 1) (p + ((w / 2 : Nat) : Int)) := by
      intro q
      rw [hL, List.mem_flatMap]
      constructor
      · rintro ⟨p, hp, hq⟩
        exact ⟨p, hp, (mem_intRange _ _ q).mp hq⟩
      · rintro ⟨p, hp, hq⟩
        exact ⟨p, hp, (mem_intRange _ _ q).mpr hq⟩
    have hok : ∀ q ∈ flatten_positions (ofInts L),
        0 ≤ q ∧ q < (v.totalFrames : Int) ∧ v.readOk q = true := by
      rw [flatten_ofInts]
      intro q hq
      obtain ⟨p, _, hq1, hq2⟩ := (hmemL q).mp hq
      have hq0 : (0 : Int) ≤ q := le_trans (le_max_left _ _) hq1
      have hqt : q ≤ (v.totalFrames : Int) - 1 := le_trans hq2 (min_le_left _ _)
      exact ⟨hq0, by omega, hread q⟩
    obtain ⟨frames, s', hcall, hmap, _⟩ :=
      get_frames_spec v (ofInts L) true (totalFramesProp v s).2 hWF1 hok
    refine ⟨frames, s', ?_, ?_, ?_, hlen⟩
    · simp only [get_frames_around_positions]
      rw [totalFramesProp_fst v s hWF]
      exact hcall
    · rw [hmap]
      exact uniqueSorted_sorted _
    · intro q
      rw [hmap, flatten_ofInts, mem_uniqueSorted]
      exact hmemL q

/-- Witness for C5's amended claim at centres `[2, 97, 50]`, window size 5
on `v100`. -/
theorem c5_frames_around_amended_witness :
    (1 : Nat) ≤ 5 ∧
    (∃ frames s', get_frames_around_positions v100 [2, 97, 50] 5 true initState =
        (.ok frames, s') ∧
      (frames.map FrameData.position).Sorted (· < ·) ∧
      (∀ q : Int, q ∈ frames.map FrameData.position ↔
        ∃ p ∈ ([2, 97, 50] : List Int), max 0 (p - ((5 / 2 : Nat) : Int)) ≤ q ∧
          q ≤ min ((v100.totalFrames : Int) - 1) (p + ((5 / 2 : Nat) : Int))) ∧
      (∀ p : Int, ((5 / 2 : Nat) : Int) ≤ p →
        p + ((5 / 2 : Nat) : Int) ≤ (v100.totalFrames : Int) - 1 →
        (intRange (max 0 (p - ((5 / 2 : Nat) : Int)))
            (min ((v100.totalFrames : Int) - 1) (p + ((5 / 2 : Nat) : Int)))).length
          = 2 * (5 / 2) + 1)) :=
  ⟨by decide, c5_frames_around_amended v100 [2, 97, 50] 5 initState (by decide)
    (by decide) (by decide) (fun _ => rfl)⟩

/-- C6: with caching, a second request for the same position returns the
very object stored in the cache by the first call and leaves the state
untouched (in particular no second read); without caching, the call
performs one fresh read and leaves the cache mapping exactly as it was. -/
theorem c6_cache_identity (v : Video) (p : Int) (s : ReaderState)
    (hWF : s.WF v) (h0 : 0 ≤ p) (h1 : p < (v.totalFrames : Int))
    (hr : v.readOk p = true) :
    (∃ fd s1, get_frame_at_position v p true s = (.ok fd, s1) ∧
      cacheLookup p s1.cache = some fd ∧
      get_frame_at_position v p true s1 = (.ok fd, s1)) ∧
    (∃ fd2 s2, get_frame_at_position v p false s = (.ok fd2, s2) ∧
      s2.cache = s.cache ∧ s2.decodes = s.decodes + 1) := by
  constructor
  · obtain ⟨fd, s1, hcall, hlk, hWF1, hstable⟩ := get_frame_cached_after v p s hWF h0 h1 hr
    exact ⟨fd, s1, hcall, hlk, get_frame_cache_hit v p s1 fd hstable h0 h1 hlk⟩
  · exact get_frame_nocache v p s hWF h0 h1 hr

/-- Witness for C6 at position 7 of `v100`. -/
theorem c6_cache_identity_witness :
    (∃ fd s1, get_frame_at_position v100 7 true initState = (.ok fd, s1) ∧
      cacheLookup 7 s1.cache = some fd ∧
      get_frame_at_position v100 7 true s1 = (.ok fd, s1)) ∧
    (∃ fd2 s2, get_frame_at_position v100 7 false initState = (.ok fd2, s2) ∧
      s2.cache = initState.cache ∧ s2.decodes = initState.decodes + 1) :=
  c6_cache_identity v100 7 initState (by decide) (by decide) (by decide) rfl

/-- C7: an out-of-range position fails with the range error carrying the
position and the total, before any read or cache change (the state after
the exception has the original cache and decode count); an in-range
position never produces a range error. -/
theorem c7_range_error_guard (v : Video) (p : Int) (uc : Bool) (s : ReaderState)
    (hWF : s.WF v) :
    (¬ (0 ≤ p ∧ p < (v.totalFrames : Int)) →
      ∃ s', get_frame_at_position v p uc s = (.error (.rangeError p v.totalFrames), s') ∧
        s'.cache = s.cache ∧ s'.decodes = s.decodes) ∧
    ((0 ≤ p ∧ p < (v.totalFrames : Int)) →
      ∀ q t, (get_frame_at_position v p uc s).1 ≠ .error (.rangeError q t)) := by
  constructor
  · intro hout
    exact ⟨_, get_frame_range_error v p uc s hWF hout,
      totalFramesProp_cache v s, totalFramesProp_decodes v s⟩
  · intro hin
    exact get_frame_no_range_error v p uc s hWF hin.1 hin.2

/-- Witness for C7: Scenario E, `get_frame(100)` on the 100-frame `v100`
raises the range error; position 50 does not. -/
theorem c7_range_error_guard_witness :
    (∃ s', get_frame_at_position v100 100 true initState =
        (.error (.rangeError 100 100), s') ∧
      s'.cache = initState.cache ∧ s'.decodes = initState.decodes) ∧
    (∀ q t, (get_frame_at_position v100 50 true initState).1 ≠ .error (.rangeError q t)) :=
  ⟨(c7_range_error_guard v100 100 true initState (by decide)).1 (by decide),
    (c7_range_error_guard v100 50 true initState (by decide)).2 (by decide)⟩

/-- C8: constructing a reader for a path absent from the filesystem fails
with the file-not-found error (so no state, hence no decoder session, is
ever created), while construction for an existing path yields the initial
state, which has no decoder session open. -/
theorem c8_init_file_check (files : List String) (path : String) :
    (path ∉ files → videoReaderInit files path = .error (.fileNotFound path)) ∧
    (path ∈ files →
      videoReaderInit files path = .ok initState ∧ initState.isOpen = false) := by
  constructor
  · intro h
    unfold videoReaderInit
    rw [if_neg h]
  · intro h
    unfold videoReaderInit
    rw [if_pos h]
    exact ⟨rfl, rfl⟩

/-- Witness for C8 on the one-file filesystem `["a"]`. -/
theorem c8_init_file_check_witness :
    videoReaderInit ["a"] "b" = .error (.fileNotFound "b") ∧
    (videoReaderInit ["a"] "a" = .ok initState ∧ initState.isOpen = false) :=
  ⟨(c8_init_file_check ["a"] "b").1 (by decide),
    (c8_init_file_check ["a"] "a").2 (by decide)⟩

/-- C9: for any window with ascending positions and any boundary — also a
malformed one with `to_frame <= from_frame` — the label sequence is
non-decreasing with values in `{0, 1, 2}`, and when
`to_frame <= from_frame + 1` the label 1 never appears. -/
theorem c9_label_monotone (si : SequenceInfo)
    (hsort : si.frame_positions.Sorted (· ≤ ·)) :
    (get_scene_labels si).Sorted (· ≤ ·) ∧
    (∀ l ∈ get_scene_labels si, l = 0 ∨ l = 1 ∨ l = 2) ∧
    (si.boundary.toFrame ≤ si.boundary.fromFrame + 1 →
      ¬ (1 ∈ get_scene_labels si)) := by
  refine ⟨?_, ?_, ?_⟩
  · have hp : (si.frame_positions.map (scene_label si.boundary)).Pairwise (· ≤ ·) := by
      rw [List.pairwise_map]
      exact List.Pairwise.imp (fun h => scene_label_mono _ h) hsort
    exact hp
  · intro l hl
    obtain ⟨p, _, hpe⟩ := List.mem_map.mp hl
    exact hpe ▸ scene_label_cases _ p
  · intro hb h1
    obtain ⟨p, _, hpe⟩ := List.mem_map.mp h1
    exact scene_label_ne_one _ hb p hpe

/-- Witness for C9 on the window `[0, 1, 2, 5]` with the instant-cut
boundary `(3, 4)`. -/
theorem c9_label_monotone_witness :
    ([0, 1, 2, 5] : List Int).Sorted (· ≤ ·) ∧
    ((get_scene_labels ⟨0, 5, [0, 1, 2, 5], ⟨3, 4⟩⟩).Sorted (· ≤ ·) ∧
      (∀ l ∈ get_scene_labels ⟨0, 5, [0, 1, 2, 5], ⟨3, 4⟩⟩, l = 0 ∨ l = 1 ∨ l = 2) ∧
      ((Boundary.mk 3 4).toFrame ≤ (Boundary.mk 3 4).fromFrame + 1 →
        ¬ (1 ∈ get_scene_labels ⟨0, 5, [0, 1, 2, 5], ⟨3, 4⟩⟩))) :=
  ⟨by decide, c9_label_monotone ⟨0, 5, [0, 1, 2, 5], ⟨3, 4⟩⟩ (by decide)⟩

/-- C10: after any sequence of reader operations started from the freshly
constructed state, every cache key lies in `[0, total_frame_count)`; and
`close()` empties the cache from any state, also when no decode session
is open. -/
theorem c10_cache_keys_in_range_and_close (v : Video) (ops : List FSOp) :
    (∀ e ∈ (ops.foldl (fun s op => runOp v op s) initState).cache,
      0 ≤ e.1 ∧ e.1 < (v.totalFrames : Int)) ∧
    ∀ s : ReaderState, (closeCap s).cache = [] :=
  ⟨(runOps_Inv v ops initState (initState_Inv v)).2, fun _ => rfl⟩

end SceneDetect
